import Mathlib

/-!
Verification development for the circuit-map comparison pipeline of the
F1 analysis repository (`f1_analysis_app/backend/circuit_map.py` and its
caller in `f1_analysis_app/app.py`).

Modelling conventions (shallow embedding):
* Machine floats are modelled as rationals `ℚ`.  A float value that may be
  IEEE NaN is modelled as `Option ℚ`, with `none` standing for NaN; the
  IEEE rule "every order comparison with NaN is false" is embedded in the
  comparison helpers `fgt`/`flt` below, which is exactly the behaviour the
  source relies on (`delta > threshold` and `delta < -threshold` on NaN
  entries, and `mean_delta > 0.1` on a NaN mean).
* Telemetry traces reach `_interpolate_on_common_distance` only through
  `_extract_fastest_telemetry`, which drops all rows with NaN `Distance`
  (`dropna(subset=["Distance"])`).  Distances are therefore plain `ℚ`.
  The claims under study only involve the `Distance` and `Speed` channels,
  so a trace is embedded as a list of `(distance, speed)` pairs; the other
  channels (`X`, `Y`, `Throttle`, ...) are interpolated by the very same
  inner `interp` function and carry no additional structure.
* A Python exception crossing a function boundary is modelled with
  `Except String`: `.error msg` is a raised exception, `.ok` a normal
  return.  `numpy` primitives used by the source (`np.interp`,
  `np.linspace`, `np.nanmean`, `np.argsort`-based stable sorting) are
  embedded by `np_interp`, `linspace`, `nanmean` and a stable insertion
  sort respectively.
-/

namespace CircuitMap

/-- IEEE `a > t` where `a` may be NaN (`none`): NaN fails every comparison. -/
def fgt : Option ℚ → ℚ → Bool
  | none, _ => false
  | some v, t => decide (t < v)

/-- IEEE `a < t` where `a` may be NaN (`none`): NaN fails every comparison. -/
def flt : Option ℚ → ℚ → Bool
  | none, _ => false
  | some v, t => decide (v < t)

/-- Per-point classification of `_split_segments_by_delta` (lines 136-138):
`labels[delta > threshold] = 1` then `labels[delta < -threshold] = -1`
(numpy executes the second assignment last, so `-1` wins if both masks are
true, which requires a negative threshold); everything else stays `0`. -/
def classifyLabel (threshold : ℚ) (a : Option ℚ) : Int :=
  if flt a (-threshold) then -1 else if fgt a threshold then 1 else 0

/-- The loop of `_split_segments_by_delta` (lines 144-148): consumes the
labels after the first one, carrying the previous label and current id. -/
def segIdsAux (prev : Int) (seg : ℕ) : List Int → List ℕ
  | [] => []
  | l :: ls =>
    if l ≠ prev then (seg + 1) :: segIdsAux l (seg + 1) ls
    else seg :: segIdsAux prev seg ls

/-- `_split_segments_by_delta` (lines 132-149).  The source reads
`labels[0]`, which raises `IndexError` on an empty delta array; a raise is
modelled as `none`.  Returns `(seg_ids, labels)`. -/
def _split_segments_by_delta (delta : List (Option ℚ)) (threshold : ℚ) :
    Option (List ℕ × List Int) :=
  let labels := delta.map (classifyLabel threshold)
  match labels with
  | [] => none
  | l :: ls => some (0 :: segIdsAux l 0 ls, l :: ls)

/-- `np.nanmean`: mean of the non-NaN entries; all-NaN input yields NaN. -/
def nanmean (xs : List (Option ℚ)) : Option ℚ :=
  let fs := xs.filterMap id
  if fs.isEmpty then none else some (fs.sum / fs.length)

/-- The renderer loop's per-segment slice (lines 187-204):
`idx = np.where(seg_ids == seg)[0]; seg_delta = delta_speed[idx]` —
the delta values at the grid points whose segment id equals `s`. -/
def segmentValues (delta : List (Option ℚ)) (segIds : List ℕ) (s : ℕ) :
    List (Option ℚ) :=
  ((delta.zip segIds).filter (fun p => p.2 == s)).map (fun p => p.1)

/-- The per-segment dominant-driver decision (lines 205-215):
`mean_delta = np.nanmean(seg_delta)`; `1` (driver1 faster) when
`mean_delta > 0.1`, `-1` (driver2 faster) when `mean_delta < -0.1`,
else `0` (equal pace / lightgrey).  The source hardcodes `0.1` here. -/
def segmentDominant (segDelta : List (Option ℚ)) : Int :=
  let m := nanmean segDelta
  if fgt m (1/10) then 1 else if flt m (-(1/10)) then -1 else 0

/-- Index ranges `(startIndex, endIndex)` of the maximal runs of equal
consecutive segment ids: the renderer's `np.unique(seg_ids)` /
`np.where(seg_ids == seg)` decomposition expressed as ranges (seg ids are
non-decreasing, so each id's index set is one contiguous run).
`i` is the index of the last consumed element, `start` the start index of
the current run, `cur` its id. -/
def runsAux (i start : ℕ) (cur : ℕ) : List ℕ → List (ℕ × ℕ)
  | [] => [(start, i)]
  | x :: xs =>
    if x = cur then runsAux (i + 1) start cur xs
    else (start, i) :: runsAux (i + 1) (i + 1) x xs

/-- Segment index ranges of a segment-id array. -/
def segmentRanges : List ℕ → List (ℕ × ℕ)
  | [] => []
  | x :: xs => runsAux 0 0 x xs

/-- `coversb rs s e = true` iff the ranges `rs` tile the half-open index
interval `[s, e)` exactly: consecutive, adjacent, no gaps, no overlaps. -/
def coversb : List (ℕ × ℕ) → ℕ → ℕ → Bool
  | [], s, e => s == e
  | (a, b) :: rs, s, e => a == s && s ≤ b && b < e && coversb rs (b + 1) e

/-- `boundaryMatchb ids labels = true` iff at every pair of consecutive
positions the segment id changes exactly when the label changes. -/
def boundaryMatchb : List ℕ → List Int → Bool
  | a :: a' :: ids, l :: l' :: ls =>
    (decide (a' = a) == decide (l' = l)) && boundaryMatchb (a' :: ids) (l' :: ls)
  | _, _ => true

/-- RGB triple as produced by `_hex_to_rgb`: three channels in `[0, 255]`. -/
structure RGB where
  r : ℕ
  g : ℕ
  b : ℕ
deriving DecidableEq, Repr

/-- Mixed RGB triple (channels after Python `int(...)` truncation). -/
structure RGBI where
  r : ℤ
  g : ℤ
  b : ℤ
deriving DecidableEq, Repr

/-- Python `int()` on a non-negative real is the floor. -/
def pyInt (x : ℚ) : ℤ := Int.floor x

/-- `_mix_color` (lines 29-35): channelwise
`int(c * (1 - factor) + m * factor)`. -/
def _mix_color (c : RGB) (mix_with : RGB) (factor : ℚ) : RGBI :=
  ⟨pyInt ((c.r : ℚ) * (1 - factor) + (mix_with.r : ℚ) * factor),
   pyInt ((c.g : ℚ) * (1 - factor) + (mix_with.g : ℚ) * factor),
   pyInt ((c.b : ℚ) * (1 - factor) + (mix_with.b : ℚ) * factor)⟩

/-- `np.linspace(a, b, n)`: `n` evenly spaced values from `a` to `b`
inclusive.  For `n = 1` numpy returns `[a]`; the formula below agrees
(`ℚ` division by zero is zero). -/
def linspace (a b : ℚ) (n : ℕ) : List ℚ :=
  (List.range n).map (fun i : ℕ => a + (b - a) * (i : ℚ) / ((n : ℚ) - 1))

/-- `np.interp x xp fp` on paired `(xp, fp)` points, `xp` sorted
non-decreasing: constant extension left of the first point and right of
the last, piecewise-linear in between.  `np.interp` raises on an empty
`xp`; the aligner only ever passes non-empty traces, and the `[]` case
returns `0` as an arbitrary value.  (At an `x` exactly equal to a
duplicated grid abscissa the first matching interval is used; the source
never depends on this tie case.) -/
def np_interp (x : ℚ) : List (ℚ × ℚ) → ℚ
  | [] => 0
  | [(_, v)] => v
  | (d0, v0) :: (d1, v1) :: rest =>
    if x ≤ d0 then v0
    else if x ≤ d1 then v0 + (v1 - v0) * (x - d0) / (d1 - d0)
    else np_interp x ((d1, v1) :: rest)

/-- The `np.argsort`-based stable sort by distance inside `interp`
(lines 106-109): `idx = np.argsort(src_d)` then reindexing both arrays. -/
def sortPairs (t : List (ℚ × ℚ)) : List (ℚ × ℚ) :=
  t.insertionSort (fun p q => p.1 ≤ q.1)

/-- `max` of a numpy array: raises on an empty array
(`zero-size array to reduction operation`), modelled as `none`. -/
def listMax : List ℚ → Option ℚ
  | [] => none
  | x :: xs => some (xs.foldl max x)

/-- `_interpolate_on_common_distance` (lines 95-129) restricted to the
`Distance` and `Speed` channels (every other channel goes through the same
`interp` call and is unused by the properties under study).  Returns
`(common, Speed1, Speed2)`.  The source's `np.isnan(max_common)` guard is
vacuous here because distances are NaN-free after
`dropna(subset=["Distance"])` in `_extract_fastest_telemetry`. -/
def _interpolate_on_common_distance (t1 t2 : List (ℚ × ℚ))
    (n_points : ℕ := 2000) : Except String (List ℚ × List ℚ × List ℚ) :=
  match listMax (t1.map (fun p => p.1)), listMax (t2.map (fun p => p.1)) with
  | some m1, some m2 =>
    let max_common := min m1 m2
    if max_common ≤ 0 then .error "Invalid distance in telemetry"
    else
      let common := linspace 0 max_common n_points
      .ok (common,
           common.map (fun x => np_interp x (sortPairs t1)),
           common.map (fun x => np_interp x (sortPairs t2)))
  | none, _ => .error "zero-size array to reduction operation maximum"
  | _, none => .error "zero-size array to reduction operation maximum"

/-- Result figure of the boundary, abstracted to what the claims observe:
either the sentinel "unavailable" figure (an empty figure carrying an
error annotation, lines 161-164) or the segment map, listing for each
segment id in `np.unique(seg_ids)` order its dominant-driver decision
(`1` = driver1's colour, `-1` = driver2's, `0` = lightgrey). -/
inductive Figure where
  | unavailable (text : String)
  | map (segs : List (ℕ × Int))
deriving DecidableEq, Repr

/-- `build_circuit_comparison_map` (lines 152-271) on the results of the
two `_extract_fastest_telemetry` calls.  The `try/except` (lines 157-164)
wraps ONLY the extraction calls: an extraction exception becomes the
sentinel annotation figure, while everything after line 165 runs outside
any handler, so an exception raised by
`_interpolate_on_common_distance` or `_split_segments_by_delta`
propagates out (`.error`).  The source fixes `n_points = 2000` (the
callee's default) and `threshold = 0.1`; the grid size is kept as a
parameter, matching the spec interface `BuildComparisonMap(.., N=2000)`. -/
def build_circuit_comparison_map (tel1 tel2 : Except String (List (ℚ × ℚ)))
    (n_points : ℕ := 2000) : Except String Figure :=
  match tel1, tel2 with
  | .error e, _ => .ok (.unavailable ("Telemetry unavailable: " ++ e))
  | .ok _, .error e => .ok (.unavailable ("Telemetry unavailable: " ++ e))
  | .ok t1, .ok t2 =>
    match _interpolate_on_common_distance t1 t2 n_points with
    | .error e => .error e
    | .ok (_, speed1, speed2) =>
      let delta : List (Option ℚ) :=
        (speed1.zip speed2).map (fun p => some (p.1 - p.2))
      match _split_segments_by_delta delta (1/10) with
      | none => .error "IndexError"
      | some (seg_ids, _) =>
        .ok (.map ((seg_ids.dedup).map
          (fun s => (s, segmentDominant (segmentValues delta seg_ids s)))))

/-- The boundary as called from the app: telemetry for each driver is
extracted from the session by driver code
(`_extract_fastest_telemetry(session, driver1/driver2)`); a session is
abstracted as the map from driver code to that call's outcome.  No
comparison of `driver1` with `driver2` occurs anywhere in the body. -/
def build_with_session (sess : String → Except String (List (ℚ × ℚ)))
    (driver1 driver2 : String) (n_points : ℕ := 2000) : Except String Figure :=
  build_circuit_comparison_map (sess driver1) (sess driver2) n_points

/-- Truthiness of an optional Streamlit selection (`None` and `""` are
falsy in Python). -/
def truthy : Option String → Bool
  | none => false
  | some s => s ≠ ""

/-- The caller gate in `app.py` (line 241):
`if selected_driver_1 and selected_driver_2 and selected_driver_1 != selected_driver_2:`
— the circuit-map builder is invoked only when this is `true`; otherwise
the page shows "Choose two distinct drivers ...". -/
def uiInvokesCircuitMap (d1 d2 : Option String) : Bool :=
  truthy d1 && truthy d2 && d1 ≠ d2

/-! ### Helper lemmas about the segmentation scan -/

theorem segIdsAux_length (ls : List Int) : ∀ (prev : Int) (seg : ℕ),
    (segIdsAux prev seg ls).length = ls.length := by
  induction ls with
  | nil => intro prev seg; rfl
  | cons x xs ih =>
    intro prev seg
    by_cases h : x = prev
    · simp [segIdsAux, h, ih]
    · simp [segIdsAux, h, ih]

theorem boundaryMatchb_segIdsAux (ls : List Int) : ∀ (prev : Int) (seg : ℕ),
    boundaryMatchb (seg :: segIdsAux prev seg ls) (prev :: ls) = true := by
  induction ls with
  | nil => intro prev seg; rfl
  | cons x xs ih =>
    intro prev seg
    by_cases h : x = prev
    · subst h
      simp only [segIdsAux, ne_eq, not_true_eq_false, if_false, boundaryMatchb]
      simp [ih]
    · simp only [segIdsAux, ne_eq, h, not_false_iff, if_true, boundaryMatchb]
      simp [h, Nat.succ_ne_self, ih]

theorem chain'_segIdsAux (ls : List Int) : ∀ (prev : Int) (seg : ℕ),
    List.Chain' (fun a b => a ≤ b ∧ b ≤ a + 1) (seg :: segIdsAux prev seg ls) := by
  induction ls with
  | nil => intro prev seg; exact List.chain'_singleton seg
  | cons x xs ih =>
    intro prev seg
    by_cases h : x = prev
    · simp only [segIdsAux, ne_eq, h, not_true_eq_false, if_false]
      exact List.Chain'.cons ⟨le_refl _, Nat.le_succ _⟩ (ih prev seg)
    · simp only [segIdsAux, ne_eq, h, not_false_iff, if_true]
      exact List.Chain'.cons ⟨Nat.le_succ _, le_refl _⟩ (ih x (seg + 1))

theorem coversb_runsAux (xs : List ℕ) : ∀ (i start cur : ℕ), start ≤ i →
    coversb (runsAux i start cur xs) start (i + xs.length + 1) = true := by
  induction xs with
  | nil =>
    intro i start cur h
    simp [runsAux, coversb, h, Nat.lt_succ_self]
  | cons x xs ih =>
    intro i start cur h
    by_cases hx : x = cur
    · have h2 := ih (i + 1) start cur (Nat.le_succ_of_le h)
      have harith : i + 1 + xs.length + 1 = i + (xs.length + 1) + 1 := by omega
      rw [harith] at h2
      simpa [runsAux, hx] using h2
    · have h2 := ih (i + 1) (i + 1) x (le_refl _)
      have harith : i + 1 + xs.length + 1 = i + (xs.length + 1) + 1 := by omega
      rw [harith] at h2
      have hlt : i < i + (xs.length + 1) + 1 := by omega
      simp [runsAux, hx, coversb, h, hlt, h2]

/-! ### Claim theorems: segmentation (C3, C4, C10) -/

/-- C3: for every non-empty advantage array, the scan's output segments
partition the index range `[0, N)` — the segment index ranges tile
`[0, N)` exactly (contiguous, ordered, non-overlapping, no gaps), the
first point starts segment `0`, and a new segment starts at an index iff
the classification label there differs from the label one before. -/
theorem C3_segment_partition (delta : List (Option ℚ)) (threshold : ℚ)
    (h : delta ≠ []) :
    ∃ seg_ids labels,
      _split_segments_by_delta delta threshold = some (seg_ids, labels) ∧
      coversb (segmentRanges seg_ids) 0 delta.length = true ∧
      seg_ids.head? = some 0 ∧
      boundaryMatchb seg_ids labels = true := by
  obtain ⟨d, ds, rfl⟩ := List.exists_cons_of_ne_nil h
  refine ⟨0 :: segIdsAux (classifyLabel threshold d) 0
      (ds.map (classifyLabel threshold)),
    classifyLabel threshold d :: ds.map (classifyLabel threshold), rfl, ?_, rfl, ?_⟩
  · have hc := coversb_runsAux
      (segIdsAux (classifyLabel threshold d) 0 (ds.map (classifyLabel threshold)))
      0 0 0 (le_refl 0)
    have hlen : (segIdsAux (classifyLabel threshold d) 0
        (ds.map (classifyLabel threshold))).length = ds.length := by
      rw [segIdsAux_length, List.length_map]
    rw [hlen] at hc
    simpa [segmentRanges] using hc
  · exact boundaryMatchb_segIdsAux _ _ _

/-- C3 witness at a concrete advantage array. -/
theorem C3_segment_partition_witness :
    ∃ seg_ids labels,
      _split_segments_by_delta [some 1, some 1, none, some (-1)] (1/2) =
        some (seg_ids, labels) ∧
      coversb (segmentRanges seg_ids) 0
        ([some 1, some 1, none, some (-1)] : List (Option ℚ)).length = true ∧
      seg_ids.head? = some 0 ∧
      boundaryMatchb seg_ids labels = true :=
  C3_segment_partition [some 1, some 1, none, some (-1)] (1/2) (by simp)

/-- C4: the per-point classification is `1` (A-faster) exactly when the
advantage exceeds `τ`, `-1` (B-faster) exactly when it is below `-τ`, and
`0` (Equal) otherwise; a NaN advantage (modelled `none`) fails both
comparisons and is classified Equal, and an all-NaN advantage array is
processed without failure, every label being Equal.  (The threshold is a
dead-band magnitude, hence taken non-negative, as in the source's fixed
`0.1`.) -/
theorem C4_classification (threshold : ℚ) (a : Option ℚ)
    (delta : List (Option ℚ)) (hτ : 0 ≤ threshold) :
    (classifyLabel threshold a = 1 ↔ ∃ v, a = some v ∧ threshold < v) ∧
    (classifyLabel threshold a = -1 ↔ ∃ v, a = some v ∧ v < -threshold) ∧
    classifyLabel threshold none = 0 ∧
    (delta ≠ [] → (∀ x ∈ delta, x = none) →
      ∃ seg_ids, _split_segments_by_delta delta threshold =
        some (seg_ids, delta.map (fun _ => 0))) := by
  have hchar : ∀ b : Option ℚ,
      classifyLabel threshold b =
        if flt b (-threshold) then -1 else if fgt b threshold then 1 else 0 :=
    fun _ => rfl
  refine ⟨?_, ?_, rfl, ?_⟩
  · rw [hchar]
    rcases a with _ | v
    · simp [flt, fgt]
    · simp only [flt, fgt, decide_eq_true_eq]
      constructor
      · intro h1
        by_cases hlt : v < -threshold
        · simp [hlt] at h1
        · by_cases hgt : threshold < v
          · exact ⟨v, rfl, hgt⟩
          · simp [hlt, hgt] at h1
      · rintro ⟨w, hw, hgt⟩
        obtain rfl : v = w := by injection hw
        have hnlt : ¬ v < -threshold := by
          intro hlt
          have : -threshold ≤ threshold := by linarith
          linarith
        simp [hnlt, hgt]
  · rw [hchar]
    rcases a with _ | v
    · simp [flt, fgt]
    · simp only [flt, fgt, decide_eq_true_eq]
      constructor
      · intro h1
        by_cases hlt : v < -threshold
        · exact ⟨v, rfl, hlt⟩
        · by_cases hgt : threshold < v
          · simp [hlt, hgt] at h1
          · simp [hlt, hgt] at h1
      · rintro ⟨w, hw, hlt⟩
        obtain rfl : v = w := by injection hw
        simp [hlt]
  · intro hne hall
    have hmap : delta.map (classifyLabel threshold) = delta.map (fun _ => 0) := by
      apply List.map_congr_left
      intro b hb
      rw [hall b hb]
      rfl
    obtain ⟨d, ds, rfl⟩ := List.exists_cons_of_ne_nil hne
    have hd : d = none := hall d (List.mem_cons_self d ds)
    subst hd
    refine ⟨0 :: segIdsAux (classifyLabel threshold none) 0
        (ds.map (classifyLabel threshold)), ?_⟩
    show some _ = some _
    rw [← hmap]
    rfl

/-- C4 witness: an all-NaN advantage array of length 3, threshold `1/10`. -/
theorem C4_classification_witness :
    classifyLabel (1/10) none = 0 ∧
    ∃ seg_ids, _split_segments_by_delta [none, none, none] (1/10) =
      some (seg_ids, ([none, none, none] : List (Option ℚ)).map (fun _ => 0)) := by
  have h := C4_classification (1/10) none [none, none, none] (by norm_num)
  exact ⟨h.2.2.1, h.2.2.2 (by simp) (by simp)⟩

/-- C10: the segmentation scan is total on non-empty input, returning
segment ids and labels of the input's length, with id `0` at index `0`,
ids non-decreasing with consecutive steps of at most `1`; on an empty
input the scan fails (it reads the element at index `0`), modelled as
`none`. -/
theorem C10_scan_safety (delta : List (Option ℚ)) (threshold : ℚ) :
    (delta ≠ [] → ∃ seg_ids labels,
      _split_segments_by_delta delta threshold = some (seg_ids, labels) ∧
      seg_ids.length = delta.length ∧
      labels.length = delta.length ∧
      seg_ids.head? = some 0 ∧
      List.Chain' (fun a b => a ≤ b ∧ b ≤ a + 1) seg_ids) ∧
    (delta = [] → _split_segments_by_delta delta threshold = none) := by
  constructor
  · intro h
    obtain ⟨d, ds, rfl⟩ := List.exists_cons_of_ne_nil h
    refine ⟨0 :: segIdsAux (classifyLabel threshold d) 0
        (ds.map (classifyLabel threshold)),
      classifyLabel threshold d :: ds.map (classifyLabel threshold),
      rfl, ?_, ?_, rfl, chain'_segIdsAux _ _ _⟩
    · simp [segIdsAux_length]
    · simp
  · rintro rfl
    rfl

/-- C10 witness at a concrete advantage array. -/
theorem C10_scan_safety_witness :
    ∃ seg_ids labels,
      _split_segments_by_delta [some 5, none] (1/10) = some (seg_ids, labels) ∧
      seg_ids.length = ([some 5, none] : List (Option ℚ)).length ∧
      labels.length = ([some 5, none] : List (Option ℚ)).length ∧
      seg_ids.head? = some 0 ∧
      List.Chain' (fun a b => a ≤ b ∧ b ≤ a + 1) seg_ids :=
  (C10_scan_safety [some 5, none] (1/10)).1 (by simp)

/-! ### Claim theorems: per-segment dominant driver (C5) and the concrete
scenario (C2) -/

/-- C5: the dominant driver of a completed segment is re-derived from the
NaN-safe arithmetic mean (`np.nanmean`) of the advantage values over the
segment's index range, with the same `0.1` comparison — driver A (`1`)
exactly when the mean exceeds `1/10`, driver B (`-1`) exactly when it is
below `-1/10` — the mean being the sum of the finite entries divided by
their count; a segment with zero finite advantage entries gets a NaN mean
and is classified Equal (`0`). -/
theorem C5_dominant_from_nanmean (delta : List (Option ℚ)) (seg_ids : List ℕ)
    (s : ℕ) :
    (segmentDominant (segmentValues delta seg_ids s) = 1 ↔
      ∃ m, nanmean (segmentValues delta seg_ids s) = some m ∧ 1/10 < m) ∧
    (segmentDominant (segmentValues delta seg_ids s) = -1 ↔
      ∃ m, nanmean (segmentValues delta seg_ids s) = some m ∧ m < -(1/10)) ∧
    (∀ m, nanmean (segmentValues delta seg_ids s) = some m →
      m = ((segmentValues delta seg_ids s).filterMap id).sum /
        ((segmentValues delta seg_ids s).filterMap id).length) ∧
    ((segmentValues delta seg_ids s).filterMap id = [] →
      segmentDominant (segmentValues delta seg_ids s) = 0) := by
  set vals := segmentValues delta seg_ids s with hvals
  have hdom : segmentDominant vals =
      if fgt (nanmean vals) (1/10) then 1
      else if flt (nanmean vals) (-(1/10)) then -1 else 0 := rfl
  refine ⟨?_, ?_, ?_, ?_⟩
  · rw [hdom]
    rcases hm : nanmean vals with _ | m
    · simp only [fgt, flt, if_false, Bool.false_eq_true]
      constructor
      · intro h1; exact absurd h1 (by decide)
      · rintro ⟨w, hw, _⟩; exact absurd hw (by simp)
    · simp only [fgt, flt, decide_eq_true_eq]
      split_ifs with h1 h2
      · exact ⟨fun _ => ⟨m, rfl, h1⟩, fun _ => rfl⟩
      · constructor
        · intro habs; exact absurd habs (by decide)
        · rintro ⟨w, hw, hgt⟩
          obtain rfl : m = w := by injection hw
          exact absurd hgt h1
      · constructor
        · intro habs; exact absurd habs (by decide)
        · rintro ⟨w, hw, hgt⟩
          obtain rfl : m = w := by injection hw
          exact absurd hgt h1
  · rw [hdom]
    rcases hm : nanmean vals with _ | m
    · simp only [fgt, flt, if_false, Bool.false_eq_true]
      constructor
      · intro h1; exact absurd h1 (by decide)
      · rintro ⟨w, hw, _⟩; exact absurd hw (by simp)
    · simp only [fgt, flt, decide_eq_true_eq]
      split_ifs with h1 h2
      · constructor
        · intro habs; exact absurd habs (by decide)
        · rintro ⟨w, hw, hlt⟩
          obtain rfl : m = w := by injection hw
          exact absurd h1 (by linarith)
      · exact ⟨fun _ => ⟨m, rfl, h2⟩, fun _ => rfl⟩
      · constructor
        · intro habs; exact absurd habs (by decide)
        · rintro ⟨w, hw, hlt⟩
          obtain rfl : m = w := by injection hw
          exact absurd hlt h2
  · intro m hm
    simp only [nanmean] at hm
    split at hm
    · exact absurd hm (by simp)
    · injection hm with hm
      exact hm.symm
  · intro he
    rw [hdom]
    have hnm : nanmean vals = none := by simp [nanmean, he]
    rw [hnm]
    simp [fgt, flt]

/-- C5 witness at a concrete pure-NaN segment. -/
theorem C5_dominant_from_nanmean_witness :
    segmentDominant (segmentValues [none, none] [0, 0] 0) = 0 := by
  have h := (C5_dominant_from_nanmean [none, none] [0, 0] 0).2.2.2
  exact h (by rfl)

/-- C2: on driver A trace `[(0,100),(10,120),(20,80)]` and driver B trace
`[(0,90),(10,90),(20,110)]` with `N = 3` and `τ = 0.1`, the aligner
produces the grid `[0,10,20]` with speeds `[100,120,80]` / `[90,90,110]`,
the advantage array is `[10,30,-30]`, the labels are `[A,A,B]`
(`[1,1,-1]`), the segment ids are `[0,0,1]`, giving exactly the two
segments with index ranges `[0,1]` (dominant A) and `[2,2]` (dominant B)
— the single boundary at index `2`. -/
theorem C2_concrete_scenario :
    _interpolate_on_common_distance [(0, 100), (10, 120), (20, 80)]
        [(0, 90), (10, 90), (20, 110)] 3 =
      .ok ([0, 10, 20], [100, 120, 80], [90, 90, 110]) ∧
    (([100, 120, 80] : List ℚ).zip [90, 90, 110]).map
        (fun p => some (p.1 - p.2)) = [some 10, some 30, some (-30)] ∧
    _split_segments_by_delta [some 10, some 30, some (-30)] (1/10) =
      some ([0, 0, 1], [1, 1, -1]) ∧
    segmentRanges [0, 0, 1] = [(0, 1), (2, 2)] ∧
    segmentDominant (segmentValues [some 10, some 30, some (-30)] [0, 0, 1] 0)
      = 1 ∧
    segmentDominant (segmentValues [some 10, some 30, some (-30)] [0, 0, 1] 1)
      = -1 := by
  refine ⟨?_, ?_, ?_, by rfl, ?_, ?_⟩
  · norm_num [_interpolate_on_common_distance, listMax, linspace, List.range_succ,
      np_interp, sortPairs, List.insertionSort, List.orderedInsert]
  · norm_num [List.zip, List.zipWith]
  · norm_num [_split_segments_by_delta, classifyLabel, fgt, flt, segIdsAux]
  · have hv : segmentValues [some 10, some 30, some (-30)] [0, 0, 1] 0 =
        [some 10, some 30] := by rfl
    have hm : nanmean [some 10, some 30] = some 20 := by
      norm_num [nanmean, List.filterMap]
    rw [segmentDominant, hv, hm]
    norm_num [fgt, flt]
  · have hv : segmentValues [some 10, some 30, some (-30)] [0, 0, 1] 1 =
        [some (-30)] := by rfl
    have hm : nanmean [some (-30)] = some (-30) := by
      norm_num [nanmean, List.filterMap]
    rw [segmentDominant, hv, hm]
    norm_num [fgt, flt]

/-! ### Helper lemmas about the common distance grid (np.linspace) -/

theorem linspace_length (a b : ℚ) (n : ℕ) : (linspace a b n).length = n := by
  simp [linspace]

theorem linspace_head (a b : ℚ) (n : ℕ) (h : 1 ≤ n) :
    (linspace a b n).head? = some a := by
  obtain ⟨m, rfl⟩ := Nat.exists_eq_add_of_le h
  rw [linspace, Nat.add_comm 1 m, List.range_succ_eq_map]
  simp

theorem map_range_getLast (f : ℕ → ℚ) (m : ℕ) :
    ((List.range (m + 1)).map f).getLast? = some (f m) := by
  rw [List.range_succ, List.map_append]
  simp only [List.map_cons, List.map_nil]
  rw [List.getLast?_append_cons]
  rfl

theorem linspace_getLast (b : ℚ) (k : ℕ) :
    (linspace 0 b (k + 2)).getLast? = some b := by
  rw [linspace]
  rw [show k + 2 = (k + 1) + 1 from rfl, map_range_getLast]
  have hcast : ((k + 2 : ℕ) : ℚ) - 1 = (k : ℚ) + 1 := by push_cast; ring
  have hne : ((k : ℚ) + 1) ≠ 0 := by positivity
  rw [hcast]
  congr 1
  push_cast
  field_simp

theorem linspace_chain'_lt (b : ℚ) (hb : 0 < b) (k : ℕ) :
    List.Chain' (· < ·) (linspace 0 b (k + 2)) := by
  rw [linspace, List.chain'_map]
  refine (List.chain'_range_succ _ (k + 1)).mpr ?_
  intro m _
  have hden : (0 : ℚ) < ((k + 2 : ℕ) : ℚ) - 1 := by push_cast; linarith
  simp only [sub_zero, zero_add, Nat.succ_eq_add_one]
  rw [div_lt_div_iff₀ hden hden]
  have hm : (m : ℚ) < (m : ℚ) + 1 := by linarith
  have hmc : ((m + 1 : ℕ) : ℚ) = (m : ℚ) + 1 := by push_cast; ring
  rw [hmc]
  nlinarith

/-! ### Claim theorem: aligner grid coverage and validation (C6) -/

/-- C6: whenever both traces have a positive maximum distance, the aligner
succeeds and its grid has exactly `n` points (the source's default is
`n = 2000`), strictly increasing, starting at `0` and ending at the
minimum of the two maximum distances, each speed array being the
interpolation over that grid; it raises (`InvalidTelemetry`) when a trace
has no distance samples at all, or when the common maximum distance is
`≤ 0`. -/
theorem C6_aligner_grid (t1 t2 : List (ℚ × ℚ)) (n : ℕ) :
    (∀ m1 m2, listMax (t1.map (fun p => p.1)) = some m1 →
      listMax (t2.map (fun p => p.1)) = some m2 → 0 < m1 → 0 < m2 → 2 ≤ n →
      _interpolate_on_common_distance t1 t2 n =
        .ok (linspace 0 (min m1 m2) n,
          (linspace 0 (min m1 m2) n).map (fun x => np_interp x (sortPairs t1)),
          (linspace 0 (min m1 m2) n).map (fun x => np_interp x (sortPairs t2))) ∧
      (linspace 0 (min m1 m2) n).length = n ∧
      List.Chain' (· < ·) (linspace 0 (min m1 m2) n) ∧
      (linspace 0 (min m1 m2) n).head? = some 0 ∧
      (linspace 0 (min m1 m2) n).getLast? = some (min m1 m2)) ∧
    ((t1 = [] ∨ t2 = []) →
      ∃ e, _interpolate_on_common_distance t1 t2 n = .error e) ∧
    (∀ m1 m2, listMax (t1.map (fun p => p.1)) = some m1 →
      listMax (t2.map (fun p => p.1)) = some m2 → min m1 m2 ≤ 0 →
      _interpolate_on_common_distance t1 t2 n =
        .error "Invalid distance in telemetry") := by
  refine ⟨?_, ?_, ?_⟩
  · intro m1 m2 h1 h2 hm1 hm2 hn
    have hmin : 0 < min m1 m2 := lt_min hm1 hm2
    have hnle : ¬ min m1 m2 ≤ 0 := not_le.mpr hmin
    obtain ⟨k, rfl⟩ : ∃ k, n = k + 2 := by
      obtain ⟨k, hk⟩ := Nat.exists_eq_add_of_le hn
      exact ⟨k, by omega⟩
    refine ⟨?_, linspace_length _ _ _, linspace_chain'_lt _ hmin _,
      linspace_head _ _ _ (by omega), linspace_getLast _ _⟩
    simp only [_interpolate_on_common_distance, h1, h2, hnle, if_false]
  · intro h
    rcases h with rfl | rfl
    · exact ⟨"zero-size array to reduction operation maximum",
        by unfold _interpolate_on_common_distance; simp [listMax]⟩
    · rcases h1 : listMax (t1.map (fun p => p.1)) with _ | m1
      · exact ⟨"zero-size array to reduction operation maximum",
          by simp only [_interpolate_on_common_distance, h1]⟩
      · exact ⟨"zero-size array to reduction operation maximum",
          by simp only [_interpolate_on_common_distance, h1]; rfl⟩
  · intro m1 m2 h1 h2 hle
    simp only [_interpolate_on_common_distance, h1, h2, hle, if_true]

/-- C6 witness at concrete one-sample traces. -/
theorem C6_aligner_grid_witness :
    _interpolate_on_common_distance [((10 : ℚ), (3 : ℚ))] [((8 : ℚ), (5 : ℚ))] 2 =
      .ok (linspace 0 (min 10 8) 2,
        (linspace 0 (min 10 8) 2).map
          (fun x => np_interp x (sortPairs [((10 : ℚ), (3 : ℚ))])),
        (linspace 0 (min 10 8) 2).map
          (fun x => np_interp x (sortPairs [((8 : ℚ), (5 : ℚ))]))) ∧
    (linspace 0 (min 10 8) 2).length = 2 ∧
    List.Chain' (· < ·) (linspace 0 ((min 10 8 : ℚ)) 2) ∧
    (linspace 0 ((min 10 8 : ℚ)) 2).head? = some 0 ∧
    (linspace 0 ((min 10 8 : ℚ)) 2).getLast? = some (min 10 8) :=
  (C6_aligner_grid [(10, 3)] [(8, 5)] 2).1 10 8 rfl rfl (by norm_num)
    (by norm_num) (le_refl 2)

/-! ### Claim theorem: same-colour disambiguation (C8) -/

theorem mix_channel_lt (x : ℕ) (hx : x ≤ 255) :
    pyInt ((x : ℚ) * (1 - 1/4) + (40 : ℚ) * (1/4)) <
      pyInt ((x : ℚ) * (1 - 7/20) + (220 : ℚ) * (7/20)) := by
  have hxq : (x : ℚ) ≤ 255 := by exact_mod_cast hx
  have hstep : (x : ℚ) * (1 - 1/4) + 40 * (1/4) + (41 : ℤ) ≤
      (x : ℚ) * (1 - 7/20) + 220 * (7/20) := by
    push_cast
    linarith
  have h1 : pyInt ((x : ℚ) * (1 - 1/4) + 40 * (1/4)) + 41 ≤
      pyInt ((x : ℚ) * (1 - 7/20) + 220 * (7/20)) := by
    rw [pyInt, pyInt, ← Int.floor_add_int ((x : ℚ) * (1 - 1/4) + 40 * (1/4)) 41]
    exact Int.floor_le_floor hstep
  omega

/-- C8: whenever the two drivers' colour lookups resolve to the same hex
value (hence the same RGB triple `c` with channels in `[0, 255]`), the two
display colours actually assigned — `c` mixed toward near-black
`(40,40,40)` with factor `0.25` for driver A and toward near-white
`(220,220,220)` with factor `0.35` for driver B (lines 179-182) — are
never equal (indeed every mixed channel of B strictly exceeds the
corresponding channel of A). -/
theorem C8_same_color_mix_differs (c : RGB)
    (hr : c.r ≤ 255) (hg : c.g ≤ 255) (hb : c.b ≤ 255) :
    _mix_color c ⟨40, 40, 40⟩ (1/4) ≠ _mix_color c ⟨220, 220, 220⟩ (7/20) := by
  intro h
  have hchan := congrArg RGBI.r h
  simp only [_mix_color] at hchan
  exact absurd hchan (ne_of_lt (mix_channel_lt c.r hr))

/-- C8 witness at the default fallback colour `#1f77b4` = (31, 119, 180). -/
theorem C8_same_color_mix_differs_witness :
    _mix_color ⟨31, 119, 180⟩ ⟨40, 40, 40⟩ (1/4) ≠
      _mix_color ⟨31, 119, 180⟩ ⟨220, 220, 220⟩ (7/20) :=
  C8_same_color_mix_differs ⟨31, 119, 180⟩ (by norm_num) (by norm_num)
    (by norm_num)

/-! ### Helper lemmas about np.interp (C9) -/

theorem np_interp_left_clamp (x d v : ℚ) (rest : List (ℚ × ℚ))
    (hx : x ≤ d) : np_interp x ((d, v) :: rest) = v := by
  cases rest with
  | nil => rfl
  | cons q qs =>
    rcases q with ⟨d1, v1⟩
    simp only [np_interp, hx, if_true, if_pos]

theorem np_interp_right_clamp : ∀ (t : List (ℚ × ℚ)) (x : ℚ) (p : ℚ × ℚ),
    t.Sorted (fun p q => p.1 ≤ q.1) → t.getLast? = some p → p.1 < x →
    np_interp x t = p.2
  | [], _, _, _, hl, _ => by cases hl
  | [(d, v)], x, p, _, hl, _ => by
    obtain rfl : (d, v) = p := by injection hl
    rfl
  | (d0, v0) :: (d1, v1) :: rest, x, p, hs, hl, hx => by
    have hl' : ((d1, v1) :: rest).getLast? = some p := by
      rwa [List.getLast?_cons_cons] at hl
    have hmem : p ∈ (d1, v1) :: rest := by
      have := List.getLast?_eq_getLast_of_ne_nil
        (l := (d1, v1) :: rest) (by simp)
      rw [this] at hl'
      injection hl' with hl2
      rw [← hl2]
      exact List.getLast_mem _
    have h0 : d0 ≤ p.1 := (List.sorted_cons.mp hs).1 p hmem
    have h1 : d1 ≤ p.1 := by
      rcases List.mem_cons.mp hmem with rfl | hp
      · exact le_refl _
      · exact (List.sorted_cons.mp (List.Sorted.of_cons hs)).1 p hp
    simp only [np_interp]
    rw [if_neg (not_le.mpr (lt_of_le_of_lt h0 hx)),
      if_neg (not_le.mpr (lt_of_le_of_lt h1 hx))]
    exact np_interp_right_clamp ((d1, v1) :: rest) x p
      (List.Sorted.of_cons hs) hl' hx

theorem np_interp_bounds : ∀ (t : List (ℚ × ℚ)) (x : ℚ),
    t.Sorted (fun p q => p.1 ≤ q.1) → t ≠ [] →
    (∃ p ∈ t, p.2 ≤ np_interp x t) ∧ (∃ q ∈ t, np_interp x t ≤ q.2)
  | [], _, _, hne => absurd rfl hne
  | [(d, v)], x, _, _ => by
    constructor
    · exact ⟨(d, v), List.mem_singleton.mpr rfl, le_refl _⟩
    · exact ⟨(d, v), List.mem_singleton.mpr rfl, le_refl _⟩
  | (d0, v0) :: (d1, v1) :: rest, x, hs, _ => by
    by_cases h0 : x ≤ d0
    · have hval : np_interp x ((d0, v0) :: (d1, v1) :: rest) = v0 := by
        simp only [np_interp]
        rw [if_pos h0]
      rw [hval]
      exact ⟨⟨(d0, v0), List.mem_cons_self _ _, le_refl _⟩,
        ⟨(d0, v0), List.mem_cons_self _ _, le_refl _⟩⟩
    · by_cases h1 : x ≤ d1
      · have hd0x : d0 < x := not_le.mp h0
        have hden : (0 : ℚ) < d1 - d0 := by
          have : d0 < d1 := lt_of_lt_of_le hd0x h1
          linarith
        have ht0 : 0 < (x - d0) / (d1 - d0) := div_pos (by linarith) hden
        have ht1 : (x - d0) / (d1 - d0) ≤ 1 :=
          (div_le_one hden).mpr (by linarith)
        have hval : np_interp x ((d0, v0) :: (d1, v1) :: rest) =
            v0 + (v1 - v0) * ((x - d0) / (d1 - d0)) := by
          simp only [np_interp]
          rw [if_neg h0, if_pos h1, mul_div_assoc]
        rw [hval]
        by_cases hv : v0 ≤ v1
        · constructor
          · refine ⟨(d0, v0), List.mem_cons_self _ _, ?_⟩
            nlinarith [mul_nonneg (by linarith : (0 : ℚ) ≤ v1 - v0)
              (le_of_lt ht0)]
          · refine ⟨(d1, v1), List.mem_cons_of_mem _ (List.mem_cons_self _ _), ?_⟩
            nlinarith [mul_le_mul_of_nonneg_left ht1
              (by linarith : (0 : ℚ) ≤ v1 - v0)]
        · constructor
          · refine ⟨(d1, v1), List.mem_cons_of_mem _ (List.mem_cons_self _ _), ?_⟩
            nlinarith [mul_le_mul_of_nonneg_left ht1
              (by linarith : (0 : ℚ) ≤ v0 - v1)]
          · refine ⟨(d0, v0), List.mem_cons_self _ _, ?_⟩
            nlinarith [mul_nonneg (by linarith : (0 : ℚ) ≤ v0 - v1)
              (le_of_lt ht0)]
      · have hrec := np_interp_bounds ((d1, v1) :: rest) x
          (List.Sorted.of_cons hs) (by simp)
        have hval : np_interp x ((d0, v0) :: (d1, v1) :: rest) =
            np_interp x ((d1, v1) :: rest) := by
          simp only [np_interp]
          rw [if_neg h0, if_neg h1]
        rw [hval]
        obtain ⟨⟨p, hp, hp2⟩, ⟨q, hq, hq2⟩⟩ := hrec
        exact ⟨⟨p, List.mem_cons_of_mem _ hp, hp2⟩,
          ⟨q, List.mem_cons_of_mem _ hq, hq2⟩⟩

/-! ### Claim theorem: no extrapolation (C9) -/

/-- C9: on a distance-sorted trace, a query point left of the smallest
sample distance gets the first sample's value, one right of the largest
sample distance gets the last sample's value, and every interpolated
value lies within the range spanned by the trace's own sample values
(some sample value is `≤` the result and some sample value is `≥` it). -/
theorem C9_no_extrapolation (x : ℚ) (t : List (ℚ × ℚ)) (hne : t ≠ [])
    (hs : t.Sorted (fun p q => p.1 ≤ q.1)) :
    (∀ p, t.head? = some p → x < p.1 → np_interp x t = p.2) ∧
    (∀ p, t.getLast? = some p → p.1 < x → np_interp x t = p.2) ∧
    (∃ p ∈ t, p.2 ≤ np_interp x t) ∧ (∃ q ∈ t, np_interp x t ≤ q.2) := by
  refine ⟨?_, ?_, (np_interp_bounds t x hs hne).1, (np_interp_bounds t x hs hne).2⟩
  · intro p hp hx
    rcases t with _ | ⟨⟨d, v⟩, rest⟩
    · cases hp
    · obtain rfl : (d, v) = p := by injection hp
      exact np_interp_left_clamp x d v rest (le_of_lt hx)
  · intro p hp hx
    exact np_interp_right_clamp t x p hs hp hx

/-- C9 witness: query right of the recorded range clamps to the last
sample's value. -/
theorem C9_no_extrapolation_witness :
    np_interp 15 [((0 : ℚ), (5 : ℚ)), (10, 9)] = 9 :=
  (C9_no_extrapolation 15 [(0, 5), (10, 9)] (by simp)
    (by simp [List.sorted_cons])).2.1 (10, 9) rfl (by norm_num)

/-! ### Claim theorems: boundary error containment (C1) -/

/-- Unfolding of the boundary when both extractions succeed (the
`try/except` falls through and the pipeline body runs). -/
theorem build_ok_ok (t1 t2 : List (ℚ × ℚ)) (n : ℕ) :
    build_circuit_comparison_map (.ok t1) (.ok t2) n =
      match _interpolate_on_common_distance t1 t2 n with
      | .error e => .error e
      | .ok (_, speed1, speed2) =>
        match _split_segments_by_delta
            ((speed1.zip speed2).map (fun p => some (p.1 - p.2))) (1/10) with
        | none => .error "IndexError"
        | some (seg_ids, _) =>
          .ok (.map ((seg_ids.dedup).map (fun s =>
            (s, segmentDominant (segmentValues
              ((speed1.zip speed2).map (fun p => some (p.1 - p.2)))
              seg_ids s))))) := rfl

/-- C1 counterexample: with telemetry extraction succeeding for both
drivers but the common maximum distance degenerate (both traces peak at
distance `0`), `build_circuit_comparison_map` raises the alignment
`ValueError` past its boundary instead of returning the sentinel
annotation figure — the `try/except` covers only the extraction calls. -/
theorem C1_counterexample :
    build_circuit_comparison_map (.ok [((0 : ℚ), (100 : ℚ))])
        (.ok [((0 : ℚ), (90 : ℚ))]) 2000 =
      .error "Invalid distance in telemetry" := by
  have hint : _interpolate_on_common_distance [((0 : ℚ), (100 : ℚ))]
      [((0 : ℚ), (90 : ℚ))] 2000 = .error "Invalid distance in telemetry" := by
    unfold _interpolate_on_common_distance
    norm_num [listMax]
  rw [build_ok_ok, hint]

/-- C1 amended: a failure of either telemetry extraction is caught and
becomes the sentinel annotation figure carrying the reason string; but a
failure raised during alignment (`_interpolate_on_common_distance`) is
not caught and propagates out of the boundary unchanged. -/
theorem C1_error_containment_amended :
    (∀ (e : String) (tel2 : Except String (List (ℚ × ℚ))) (n : ℕ),
      build_circuit_comparison_map (.error e) tel2 n =
        .ok (.unavailable ("Telemetry unavailable: " ++ e))) ∧
    (∀ (t1 : List (ℚ × ℚ)) (e : String) (n : ℕ),
      build_circuit_comparison_map (.ok t1) (.error e) n =
        .ok (.unavailable ("Telemetry unavailable: " ++ e))) ∧
    (∀ (t1 t2 : List (ℚ × ℚ)) (n : ℕ) (e : String),
      _interpolate_on_common_distance t1 t2 n = .error e →
      build_circuit_comparison_map (.ok t1) (.ok t2) n = .error e) := by
  refine ⟨fun e tel2 n => rfl, fun t1 e n => rfl, fun t1 t2 n e h => ?_⟩
  rw [build_ok_ok, h]

/-- C1 amended witness: both extraction-failure containment and alignment
failure propagation at concrete inputs. -/
theorem C1_error_containment_witness :
    build_circuit_comparison_map (.error "No laps for driver") (.ok []) 5 =
      .ok (.unavailable ("Telemetry unavailable: " ++ "No laps for driver")) ∧
    build_circuit_comparison_map (.ok [((0 : ℚ), (1 : ℚ))]) (.ok []) 5 =
      .error "zero-size array to reduction operation maximum" :=
  ⟨C1_error_containment_amended.1 "No laps for driver" (.ok []) 5,
   C1_error_containment_amended.2.2 [((0 : ℚ), (1 : ℚ))] [] 5
     "zero-size array to reduction operation maximum"
     (by unfold _interpolate_on_common_distance; simp [listMax])⟩

/-! ### Claim theorems: no same-driver rejection at the boundary (C7) -/

theorem zip_same_eq {α : Type} : ∀ (l : List α) (p : α × α),
    p ∈ l.zip l → p.1 = p.2 := by
  intro l
  induction l with
  | nil => intro p hp; cases hp
  | cons a l ih =>
    intro p hp
    rw [List.zip_cons_cons] at hp
    rcases List.mem_cons.mp hp with rfl | hp2
    · rfl
    · exact ih p hp2

theorem segmentValues_subset (delta : List (Option ℚ)) (ids : List ℕ)
    (s : ℕ) : ∀ v ∈ segmentValues delta ids s, v ∈ delta := by
  intro v hv
  simp only [segmentValues, List.mem_map] at hv
  obtain ⟨⟨a, b⟩, hab, rfl⟩ := hv
  exact (List.of_mem_zip (List.mem_of_mem_filter hab)).1

theorem filterMap_id_all_zero : ∀ (vals : List (Option ℚ)),
    (∀ v ∈ vals, v = some 0) →
    vals.filterMap id = vals.map (fun _ => (0 : ℚ))
  | [], _ => rfl
  | a :: l, h => by
    have ha := h a (List.mem_cons_self a l)
    subst ha
    simp only [List.filterMap_cons, id, List.map_cons]
    rw [filterMap_id_all_zero l (fun v hv => h v (List.mem_cons_of_mem _ hv))]

theorem segmentDominant_of_all_zero (vals : List (Option ℚ))
    (h : ∀ v ∈ vals, v = some 0) : segmentDominant vals = 0 := by
  have hdom : segmentDominant vals =
      if fgt (nanmean vals) (1/10) then 1
      else if flt (nanmean vals) (-(1/10)) then -1 else 0 := rfl
  have hfm : vals.filterMap id = vals.map (fun _ => (0 : ℚ)) :=
    filterMap_id_all_zero vals h
  rcases hnm : nanmean vals with _ | m
  · rw [hdom, hnm]
    simp [fgt, flt]
  · have hm0 : m = 0 := by
      simp only [nanmean] at hnm
      split at hnm
      · cases hnm
      · injection hnm with h2
        rw [hfm] at h2
        have hsum : (vals.map (fun _ => (0 : ℚ))).sum = 0 := by
          simp
        rw [hsum, zero_div] at h2
        exact h2.symm
    subst hm0
    rw [hdom, hnm]
    norm_num [fgt, flt]

theorem interpolate_self_speeds : ∀ (t : List (ℚ × ℚ)) (n : ℕ)
    (g s1 s2 : List ℚ),
    _interpolate_on_common_distance t t n = .ok (g, s1, s2) → s1 = s2 := by
  intro t n g s1 s2 h
  rcases t with _ | ⟨p, ts⟩
  · cases h
  · unfold _interpolate_on_common_distance at h
    simp only [List.map_cons, listMax] at h
    split at h
    · cases h
    · injection h with h2
      injection h2 with hg hrest
      injection hrest with hs1 hs2
      rw [← hs1, ← hs2]

/-- C7 counterexample: calling the boundary with identical driver codes
is NOT rejected — there is no `SameDriver` check anywhere — and returns a
normal comparison figure (one all-Equal segment), not an error. -/
theorem C7_counterexample :
    build_with_session (fun _ => .ok [((0 : ℚ), (100 : ℚ)), (10, 120)])
        "VER" "VER" 3 = .ok (.map [(0, 0)]) := by
  have hint : _interpolate_on_common_distance
      [((0 : ℚ), (100 : ℚ)), (10, 120)] [((0 : ℚ), (100 : ℚ)), (10, 120)] 3 =
      .ok ([0, 5, 10], [100, 110, 120], [100, 110, 120]) := by
    unfold _interpolate_on_common_distance
    norm_num [listMax, linspace, List.range_succ, np_interp, sortPairs,
      List.insertionSort, List.orderedInsert]
  have hdelta : (([100, 110, 120] : List ℚ).zip [100, 110, 120]).map
      (fun p => some (p.1 - p.2)) = [some 0, some 0, some 0] := by
    norm_num [List.zip, List.zipWith]
  have hsplit : _split_segments_by_delta [some 0, some 0, some 0] (1/10) =
      some ([0, 0, 0], [0, 0, 0]) := by
    norm_num [_split_segments_by_delta, classifyLabel, fgt, flt, segIdsAux]
  have hvals : segmentValues [some 0, some 0, some 0] [0, 0, 0] 0 =
      [some 0, some 0, some 0] := by rfl
  have hdom : segmentDominant [some 0, some 0, some 0] = 0 :=
    segmentDominant_of_all_zero _ (by intro v hv; simp at hv; exact hv)
  have hdedup : ([0, 0, 0] : List ℕ).dedup = [0] := by decide
  show build_circuit_comparison_map (.ok [((0 : ℚ), (100 : ℚ)), (10, 120)])
    (.ok [((0 : ℚ), (100 : ℚ)), (10, 120)]) 3 = .ok (.map [(0, 0)])
  rw [build_ok_ok, hint]
  simp only [hdelta, hsplit, hdedup, List.map_cons, List.map_nil, hvals, hdom]

/-- C7 amended: the boundary itself performs no same-driver rejection:
with identical drivers every segment of a successfully built figure is
classified Equal (the advantage signal is identically zero); the
distinct-driver requirement is enforced solely by the UI caller, which
skips the builder (and shows an info message) whenever the two
selections coincide. -/
theorem C7_no_samedriver_amended :
    (∀ (sess : String → Except String (List (ℚ × ℚ))) (d : String) (n : ℕ)
      (segs : List (ℕ × Int)),
      build_with_session sess d d n = .ok (.map segs) → ∀ p ∈ segs, p.2 = 0) ∧
    (∀ d1 d2 : Option String, d1 = d2 → uiInvokesCircuitMap d1 d2 = false) := by
  constructor
  · intro sess d n segs hb p hp
    unfold build_with_session at hb
    rcases hsess : sess d with e | t
    · rw [hsess] at hb
      injection hb with hfig
      cases hfig
    · rw [hsess, build_ok_ok] at hb
      rcases hint : _interpolate_on_common_distance t t n with e | ⟨g, s1, s2⟩
      · rw [hint] at hb
        cases hb
      · rw [hint] at hb
        have hs12 : s1 = s2 := interpolate_self_speeds t n g s1 s2 hint
        subst hs12
        simp only [] at hb
        have hdz : ∀ v ∈ (s1.zip s1).map (fun p => some (p.1 - p.2)),
            v = some (0 : ℚ) := by
          intro v hv
          simp only [List.mem_map] at hv
          obtain ⟨q, hq, rfl⟩ := hv
          rw [zip_same_eq s1 q hq]
          simp
        rcases hsplit : _split_segments_by_delta
            ((s1.zip s1).map (fun p => some (p.1 - p.2))) (1/10)
            with _ | ⟨ids, labels⟩
        · rw [hsplit] at hb
          cases hb
        · rw [hsplit] at hb
          injection hb with hfig
          injection hfig with hsegs
          rw [← hsegs] at hp
          simp only [List.mem_map] at hp
          obtain ⟨s, _, rfl⟩ := hp
          show segmentDominant (segmentValues _ ids s) = 0
          exact segmentDominant_of_all_zero _
            (fun v hv => hdz v (segmentValues_subset _ ids s v hv))
  · intro d1 d2 h
    subst h
    simp [uiInvokesCircuitMap]

/-- C7 amended witness: the UI gate evaluates to `false` on identical
selections. -/
theorem C7_no_samedriver_witness :
    uiInvokesCircuitMap (some "VER") (some "VER") = false :=
  C7_no_samedriver_amended.2 (some "VER") (some "VER") rfl

end CircuitMap
